import Mathlib

/-!
Shallow embedding of the model layer of the blog application (app/models.py):
the permission bitmask registry, the role store with its seeding routine,
the identity model (password, activation and auth tokens, last-seen), and
the comment model (body rendering listener).  Definitions are translated
directly from the Python source; external library behaviour that the source
relies on (itsdangerous serializers, bleach sanitizing, werkzeug hashing) is
modelled explicitly and marked as such in the doc comments.
-/

set_option maxHeartbeats 1000000

namespace MySite

/-! ## Permission registry (class Permission) -/

namespace Permission

/-- Permission.FOLLOW = 1. -/
def FOLLOW : Nat := 1

/-- Permission.COMMENT = 2. -/
def COMMENT : Nat := 2

/-- Permission.WRITE = 4. -/
def WRITE : Nat := 4

/-- Permission.MODERATE = 8. -/
def MODERATE : Nat := 8

/-- Permission.ADMIN = 16. -/
def ADMIN : Nat := 16

end Permission

/-! ## Role model (class Role) -/

/-- A row of the role table: name (unique in the database), the default
flag, and the integer permission mask.  The Role constructor sets
permissions to 0 when not given, so masks are natural numbers. -/
structure Role where
  name : String
  default : Bool
  permissions : Nat
  deriving Repr, DecidableEq

/-- Role.has_permission: `self.permissions & perm == perm`. -/
def Role.has_permission (r : Role) (perm : Nat) : Bool :=
  r.permissions &&& perm == perm

/-- Role.add_permission: `if not self.has_permission(perm): self.permissions += perm`. -/
def Role.add_permission (r : Role) (perm : Nat) : Role :=
  if ¬ r.has_permission perm then { r with permissions := r.permissions + perm } else r

/-- Role.remove_permission: `if self.has_permission(perm): self.permissions -= perm`. -/
def Role.remove_permission (r : Role) (perm : Nat) : Role :=
  if r.has_permission perm then { r with permissions := r.permissions - perm } else r

/-- Role.reset_permissions: `self.permissions = 0`. -/
def Role.reset_permissions (r : Role) : Role :=
  { r with permissions := 0 }

/-! ## Role store and the seeding routine (Role.insert_roles)

The role table is modelled as a list of rows.  `Role.query.filter_by(name=n).first()`
is `List.find?` on the name; mutating the found row in place and committing is
replacing the first row with that name; creating a new row and adding it to the
session appends it. -/

/-- Predicate used by `filter_by(name=n)`. -/
def byName (n : String) : Role → Bool := fun r => r.name == n

/-- Replace the first row whose name matches `n` by `r'` (in-place mutation of
the row returned by `.first()`); if no row matches, the store is unchanged. -/
def updateFirst (store : List Role) (n : String) (r' : Role) : List Role :=
  match store with
  | [] => []
  | x :: xs => if byName n x then r' :: xs else x :: updateFirst xs n r'

/-- The permission table of Role.insert_roles: role name, list of permissions. -/
def rolesTable : List (String × List Nat) :=
  [("user", [Permission.FOLLOW, Permission.COMMENT]),
   ("moderator", [Permission.FOLLOW, Permission.COMMENT, Permission.MODERATE]),
   ("admin", [Permission.FOLLOW, Permission.COMMENT, Permission.WRITE,
              Permission.MODERATE, Permission.ADMIN])]

/-- The loop body of insert_roles applied to one role `r0` (found or fresh):
reset_permissions, add each configured permission, then set
`role.default = (role.name == "user")`. -/
def setupRole (r0 : Role) (perms : List Nat) : Role :=
  let r1 := r0.reset_permissions
  let r2 := perms.foldl Role.add_permission r1
  { r2 with default := r2.name == "user" }

/-- One iteration of the insert_roles loop for role name `n` with permission
list `perms`: find-or-create by name, set it up, and write it back. -/
def seedStep (store : List Role) (n : String) (perms : List Nat) : List Role :=
  match store.find? (byName n) with
  | some r0 => updateFirst store n (setupRole r0 perms)
  | none => store ++ [setupRole (Role.mk n false 0) perms]

/-- Role.insert_roles: iterate the loop body over the fixed table
(dict iteration order: user, moderator, admin) against a prior store. -/
def insert_roles (store : List Role) : List Role :=
  rolesTable.foldl (fun st p => seedStep st p.1 p.2) store

/-- Pure computation of the mask produced by folding add_permission over a
permission list, starting from mask `m`. -/
def permFold (m : Nat) (ps : List Nat) : Nat :=
  ps.foldl (fun acc p => if ¬ (acc &&& p == p) then acc + p else acc) m

/-! ### Structural lemmas about the seeding routine -/

theorem find_byName_name {store : List Role} {n : String} {r : Role}
    (h : store.find? (byName n) = some r) : r.name = n := by
  have := List.find?_some h
  simpa [byName] using this

theorem foldl_add_permission_eq (r : Role) (ps : List Nat) :
    ps.foldl Role.add_permission r = { r with permissions := permFold r.permissions ps } := by
  induction ps generalizing r with
  | nil => simp [permFold]
  | cons p ps ih =>
      simp only [List.foldl_cons, permFold, Role.add_permission, Role.has_permission]
      by_cases h : r.permissions &&& p == p
      · simp [h, ih, permFold]
      · simp [h, ih, permFold]

theorem setupRole_eq (r0 : Role) (ps : List Nat) :
    setupRole r0 ps = Role.mk r0.name (r0.name == "user") (permFold 0 ps) := by
  simp [setupRole, Role.reset_permissions, foldl_add_permission_eq]

theorem updateFirst_find_self {store : List Role} {n : String} {r' : Role}
    (hn : r'.name = n) (h : (store.find? (byName n)).isSome) :
    (updateFirst store n r').find? (byName n) = some r' := by
  induction store with
  | nil => simp [List.find?] at h
  | cons x xs ih =>
      cases hx : byName n x with
      | true =>
          have hr' : byName n r' = true := by simp [byName, hn]
          simp [updateFirst, hx, List.find?_cons_of_pos _ hr']
      | false =>
          have hx' : ¬ (byName n x = true) := by simp [hx]
          have h2 : (List.find? (byName n) xs).isSome := by
            simpa [List.find?_cons_of_neg _ hx'] using h
          simp [updateFirst, hx, List.find?_cons_of_neg _ hx', ih h2]

theorem updateFirst_find_other {store : List Role} {n n' : String} {r' : Role}
    (hne : n' ≠ n) (hn : r'.name = n) :
    (updateFirst store n r').find? (byName n') = store.find? (byName n') := by
  induction store with
  | nil => simp [updateFirst]
  | cons x xs ih =>
      by_cases hx : byName n x
      · have hx' : ¬ byName n' x := by
          simp only [byName, beq_iff_eq] at hx ⊢
          rw [hx]; exact fun hc => hne hc.symm
        have hr' : ¬ byName n' r' := by
          simp only [byName, beq_iff_eq, hn]
          exact fun hc => hne hc.symm
        simp [updateFirst, hx, List.find?_cons_of_neg _ hx', List.find?_cons_of_neg _ hr']
      · by_cases hx' : byName n' x
        · simp [updateFirst, hx, List.find?_cons_of_pos _ hx']
        · simp [updateFirst, hx, List.find?_cons_of_neg _ hx', ih]

theorem seedStep_find_self (store : List Role) (n : String) (ps : List Nat) :
    (seedStep store n ps).find? (byName n) =
      some (Role.mk n (n == "user") (permFold 0 ps)) := by
  unfold seedStep
  cases h : store.find? (byName n) with
  | some r0 =>
      have hname : r0.name = n := find_byName_name h
      have hsetup : (setupRole r0 ps).name = n := by rw [setupRole_eq]; exact hname
      rw [updateFirst_find_self hsetup (by rw [h]; rfl)]
      rw [setupRole_eq, hname]
  | none =>
      rw [List.find?_append, h, Option.none_or, setupRole_eq]
      exact List.find?_cons_of_pos _ (by simp [byName])

theorem seedStep_find_other (store : List Role) {n n' : String} (ps : List Nat)
    (hne : n' ≠ n) :
    (seedStep store n ps).find? (byName n') = store.find? (byName n') := by
  unfold seedStep
  cases h : store.find? (byName n) with
  | some r0 =>
      have hname : r0.name = n := find_byName_name h
      have hsetup : (setupRole r0 ps).name = n := by rw [setupRole_eq]; exact hname
      exact updateFirst_find_other hne hsetup
  | none =>
      rw [List.find?_append]
      have : ¬ byName n' (setupRole (Role.mk n false 0) ps) = true := by
        rw [setupRole_eq]
        simp only [byName, beq_iff_eq]
        exact fun hc => hne hc.symm
      cases h' : store.find? (byName n') with
      | some r => simp
      | none => simp [List.find?_cons_of_neg _ this]

theorem insert_roles_eq (store : List Role) :
    insert_roles store =
      seedStep (seedStep (seedStep store "user" [1, 2]) "moderator" [1, 2, 8])
        "admin" [1, 2, 4, 8, 16] := by
  rfl

theorem insert_roles_find_user (store : List Role) :
    (insert_roles store).find? (byName "user") = some (Role.mk "user" true 3) := by
  rw [insert_roles_eq, seedStep_find_other _ _ (by decide),
    seedStep_find_other _ _ (by decide), seedStep_find_self]
  rfl

theorem insert_roles_find_moderator (store : List Role) :
    (insert_roles store).find? (byName "moderator") =
      some (Role.mk "moderator" false 11) := by
  rw [insert_roles_eq, seedStep_find_other _ _ (by decide), seedStep_find_self]
  rfl

theorem insert_roles_find_admin (store : List Role) :
    (insert_roles store).find? (byName "admin") = some (Role.mk "admin" false 31) := by
  rw [insert_roles_eq, seedStep_find_self]
  rfl

/-! ### Counting default-flagged rows through the seeding routine -/

/-- Count of rows with the default flag set. -/
def countDefault (store : List Role) : Nat :=
  store.countP (fun r => r.default)

/-- Contribution of an optional row to the default count. -/
def dcount (o : Option Role) : Nat :=
  match o with
  | some r => if r.default then 1 else 0
  | none => 0

/-- Names of the rows of a store. -/
def namesOf (store : List Role) : List String :=
  store.map Role.name

theorem countDefault_cons (x : Role) (xs : List Role) :
    countDefault (x :: xs) = countDefault xs + (if x.default then 1 else 0) := by
  simp [countDefault, List.countP_cons]

theorem countDefault_updateFirst {store : List Role} {n : String} {r0 r' : Role}
    (h : store.find? (byName n) = some r0) :
    countDefault (updateFirst store n r') + (if r0.default then 1 else 0) =
      countDefault store + (if r'.default then 1 else 0) := by
  induction store with
  | nil => simp [List.find?] at h
  | cons x xs ih =>
      cases hx : byName n x with
      | true =>
          rw [List.find?_cons_of_pos _ hx] at h
          cases h
          simp only [updateFirst, hx, if_true, countDefault_cons]
          omega
      | false =>
          have hx' : ¬ (byName n x = true) := by simp [hx]
          rw [List.find?_cons_of_neg _ hx'] at h
          simp only [updateFirst, hx, Bool.false_eq_true, if_false, countDefault_cons]
          have := ih h
          omega

theorem countDefault_seedStep (store : List Role) (n : String) (ps : List Nat) :
    countDefault (seedStep store n ps) + dcount (store.find? (byName n)) =
      countDefault store + (if n == "user" then 1 else 0) := by
  unfold seedStep
  cases h : store.find? (byName n) with
  | some r0 =>
      have hname : r0.name = n := find_byName_name h
      have hthis := @countDefault_updateFirst store n r0 (setupRole r0 ps) h
      have hdef : (setupRole r0 ps).default = (n == "user") := by
        rw [setupRole_eq, hname]
      rw [hdef] at hthis
      simpa [dcount] using hthis
  | none =>
      rw [setupRole_eq]
      simp [dcount, countDefault, List.countP_append, List.countP_cons]

/-- Decomposition of the default count of a store whose row names are distinct
and whose default-flagged rows all carry one of the three seeded names. -/
theorem countDefault_decompose (store : List Role)
    (h1 : (namesOf store).Nodup)
    (h2 : ∀ r ∈ store, r.default = true →
      r.name = "user" ∨ r.name = "moderator" ∨ r.name = "admin") :
    countDefault store =
      dcount (store.find? (byName "user")) + dcount (store.find? (byName "moderator")) +
        dcount (store.find? (byName "admin")) := by
  induction store with
  | nil => simp [countDefault, dcount, List.find?]
  | cons x xs ih =>
      have h1x : x.name ∉ namesOf xs ∧ (namesOf xs).Nodup := by
        simpa [namesOf, List.nodup_cons] using h1
      have hfind : ∀ n : String, x.name = n → xs.find? (byName n) = none := by
        intro n hn
        apply List.find?_eq_none.mpr
        intro y hy hc
        exact h1x.1 (by
          simp only [byName, beq_iff_eq] at hc
          rw [hn, ← hc]
          exact List.mem_map_of_mem _ hy)
      have ih' := ih h1x.2 (fun r hr => h2 r (List.mem_cons_of_mem _ hr))
      rw [countDefault_cons]
      cases hd : x.default with
      | false =>
          have huser : dcount ((x :: xs).find? (byName "user")) =
              dcount (xs.find? (byName "user")) := by
            cases hx : byName "user" x with
            | true =>
                have hn : x.name = "user" := by simpa [byName] using hx
                rw [List.find?_cons_of_pos _ hx, hfind _ hn]
                simp [dcount, hd]
            | false =>
                rw [List.find?_cons_of_neg _ (by simp [hx])]
          have hmod : dcount ((x :: xs).find? (byName "moderator")) =
              dcount (xs.find? (byName "moderator")) := by
            cases hx : byName "moderator" x with
            | true =>
                have hn : x.name = "moderator" := by simpa [byName] using hx
                rw [List.find?_cons_of_pos _ hx, hfind _ hn]
                simp [dcount, hd]
            | false =>
                rw [List.find?_cons_of_neg _ (by simp [hx])]
          have hadm : dcount ((x :: xs).find? (byName "admin")) =
              dcount (xs.find? (byName "admin")) := by
            cases hx : byName "admin" x with
            | true =>
                have hn : x.name = "admin" := by simpa [byName] using hx
                rw [List.find?_cons_of_pos _ hx, hfind _ hn]
                simp [dcount, hd]
            | false =>
                rw [List.find?_cons_of_neg _ (by simp [hx])]
          rw [huser, hmod, hadm, ih']
          simp
      | true =>
          have hnames := h2 x (List.mem_cons_self x xs) hd
          have key : ∀ sel : String, x.name = sel →
              dcount ((x :: xs).find? (byName sel)) = 1 ∧
              xs.find? (byName sel) = none := by
            intro sel hsel
            constructor
            · rw [List.find?_cons_of_pos _ (by simp [byName, hsel])]
              simp [dcount, hd]
            · exact hfind _ hsel
          have keyOther : ∀ sel : String, x.name ≠ sel →
              (x :: xs).find? (byName sel) = xs.find? (byName sel) := by
            intro sel hsel
            rw [List.find?_cons_of_neg _ (by simp [byName, hsel])]
          have hz : dcount (none : Option Role) = 0 := rfl
          rcases hnames with hn | hn | hn
          · obtain ⟨k1, k2⟩ := key _ hn
            rw [k1, keyOther "moderator" (by rw [hn]; decide),
              keyOther "admin" (by rw [hn]; decide), ih', k2, if_pos rfl]
            omega
          · obtain ⟨k1, k2⟩ := key _ hn
            rw [k1, keyOther "user" (by rw [hn]; decide),
              keyOther "admin" (by rw [hn]; decide), ih', k2, if_pos rfl]
            omega
          · obtain ⟨k1, k2⟩ := key _ hn
            rw [k1, keyOther "user" (by rw [hn]; decide),
              keyOther "moderator" (by rw [hn]; decide), ih', k2, if_pos rfl]
            omega

theorem updateFirst_namesOf {store : List Role} {n : String} {r' : Role}
    (hn : r'.name = n) : namesOf (updateFirst store n r') = namesOf store := by
  induction store with
  | nil => rfl
  | cons x xs ih =>
      cases hx : byName n x with
      | true =>
          have hxn : x.name = n := by simpa [byName] using hx
          simp [updateFirst, hx, namesOf, hn, hxn]
      | false =>
          have ih' := ih
          simp only [namesOf] at ih' ⊢
          simp [updateFirst, hx, ih']

theorem find_none_name_not_mem {store : List Role} {n : String}
    (h : store.find? (byName n) = none) : n ∉ namesOf store := by
  intro hmem
  obtain ⟨y, hy, hyn⟩ := List.mem_map.mp hmem
  have := List.find?_eq_none.mp h y hy
  simp [byName, hyn] at this

theorem seedStep_namesOf_nodup {store : List Role} {n : String} {ps : List Nat}
    (h : (namesOf store).Nodup) : (namesOf (seedStep store n ps)).Nodup := by
  unfold seedStep
  cases hf : store.find? (byName n) with
  | some r0 =>
      have h0 : r0.name = n := find_byName_name hf
      have hname : (setupRole r0 ps).name = n := by rw [setupRole_eq]; exact h0
      rw [updateFirst_namesOf hname]
      exact h
  | none =>
      have hnot : n ∉ namesOf store := find_none_name_not_mem hf
      have : namesOf (store ++ [setupRole (Role.mk n false 0) ps]) =
          namesOf store ++ [n] := by
        rw [setupRole_eq]; simp [namesOf]
      rw [this]
      simp only [List.nodup_append, List.nodup_cons, List.not_mem_nil, not_false_iff,
        List.nodup_nil, and_true, List.disjoint_singleton]
      exact ⟨h, by simpa using hnot⟩

theorem updateFirst_mem {store : List Role} {n : String} {r' x : Role}
    (h1 : (namesOf store).Nodup) (hx : x ∈ updateFirst store n r') :
    x = r' ∨ (x ∈ store ∧ x.name ≠ n) := by
  induction store with
  | nil => simp [updateFirst] at hx
  | cons y ys ih =>
      have h1y : y.name ∉ namesOf ys ∧ (namesOf ys).Nodup := by
        simpa [namesOf, List.nodup_cons] using h1
      cases hy : byName n y with
      | true =>
          have hyn : y.name = n := by simpa [byName] using hy
          simp only [updateFirst, hy, if_true] at hx
          rcases List.mem_cons.mp hx with h | h
          · exact Or.inl h
          · refine Or.inr ⟨List.mem_cons_of_mem _ h, fun hc => ?_⟩
            exact h1y.1 (by rw [hyn, ← hc]; exact List.mem_map_of_mem _ h)
      | false =>
          simp only [updateFirst, hy, Bool.false_eq_true, if_false] at hx
          rcases List.mem_cons.mp hx with h | h
          · refine Or.inr ⟨by rw [h]; exact List.mem_cons_self y ys, ?_⟩
            rw [h]
            simpa [byName] using hy
          · rcases ih h1y.2 h with h' | h'
            · exact Or.inl h'
            · exact Or.inr ⟨List.mem_cons_of_mem _ h'.1, h'.2⟩

theorem seedStep_mem {store : List Role} {n : String} {ps : List Nat} {x : Role}
    (h1 : (namesOf store).Nodup) (hx : x ∈ seedStep store n ps) :
    x = Role.mk n (n == "user") (permFold 0 ps) ∨ (x ∈ store ∧ x.name ≠ n) := by
  unfold seedStep at hx
  cases hf : store.find? (byName n) with
  | some r0 =>
      rw [hf] at hx
      have hname : r0.name = n := find_byName_name hf
      rcases updateFirst_mem h1 hx with h | h
      · left; rw [h, setupRole_eq, hname]
      · exact Or.inr h
  | none =>
      rw [hf] at hx
      rcases List.mem_append.mp hx with h | h
      · refine Or.inr ⟨h, fun hc => ?_⟩
        exact find_none_name_not_mem hf (by rw [← hc]; exact List.mem_map_of_mem _ h)
      · left
        have := List.mem_singleton.mp h
        rw [this, setupRole_eq]

open MySite MySite.Permission

/-- C1: for every prior state of the role store, after Role.insert_roles the
role named "admin" carries exactly the mask FOLLOW|COMMENT|WRITE|MODERATE|ADMIN
(so has_permission holds for a permission value precisely when all its bits lie
in that set), and every seeded role's mask converges to its configured exact
set — "user" to FOLLOW|COMMENT, "moderator" to FOLLOW|COMMENT|MODERATE —
regardless of any stale prior masks or flags (re-running is covered since the
prior store is universally quantified). -/
theorem seed_roles_admin_mask_exact (store : List Role) :
    (insert_roles store).find? (byName "admin") =
      some (Role.mk "admin" false (FOLLOW ||| COMMENT ||| WRITE ||| MODERATE ||| ADMIN)) ∧
    (∀ p : Nat,
      (Role.mk "admin" false (FOLLOW ||| COMMENT ||| WRITE ||| MODERATE ||| ADMIN)
          ).has_permission p = true ↔
        p &&& (FOLLOW ||| COMMENT ||| WRITE ||| MODERATE ||| ADMIN) = p) ∧
    (insert_roles store).find? (byName "user") =
      some (Role.mk "user" true (FOLLOW ||| COMMENT)) ∧
    (insert_roles store).find? (byName "moderator") =
      some (Role.mk "moderator" false (FOLLOW ||| COMMENT ||| MODERATE)) := by
  refine ⟨?_, ?_, ?_, ?_⟩
  · simpa using insert_roles_find_admin store
  · intro p
    show ((31 : Nat) &&& p == p) = true ↔ p &&& 31 = p
    rw [Nat.and_comm, beq_iff_eq]
  · simpa using insert_roles_find_user store
  · simpa using insert_roles_find_moderator store

/-- C8 counterexample: insert_roles only rewrites the three seeded rows, so a
prior store holding a default-flagged role named "other" ends up with two
default roles ("other" and "user") — the claim that for every prior state
exactly one role is default after seeding is false. -/
theorem seed_roles_unique_default_counterexample :
    countDefault (insert_roles [Role.mk "other" true 0]) = 2 ∧
    ¬ (countDefault (insert_roles [Role.mk "other" true 0]) = 1 ∧
      ∀ r ∈ insert_roles [Role.mk "other" true 0], r.default = true → r.name = "user") := by
  decide

/-- C8 (amended): for every prior state of the role store whose row names are
distinct (the database enforces a unique constraint on role.name) and whose
default-flagged rows all carry one of the seeded names user/moderator/admin
(the only roles the application ever creates), after Role.insert_roles exactly
one role has the default flag set, and that role is named "user". -/
theorem seed_roles_unique_default (store : List Role)
    (h1 : (namesOf store).Nodup)
    (h2 : ∀ r ∈ store, r.default = true →
      r.name = "user" ∨ r.name = "moderator" ∨ r.name = "admin") :
    countDefault (insert_roles store) = 1 ∧
    ∀ r ∈ insert_roles store, r.default = true → r.name = "user" := by
  constructor
  · have e1 := countDefault_seedStep store "user" [1, 2]
    have e2 := countDefault_seedStep (seedStep store "user" [1, 2]) "moderator" [1, 2, 8]
    have e3 := countDefault_seedStep
      (seedStep (seedStep store "user" [1, 2]) "moderator" [1, 2, 8]) "admin" [1, 2, 4, 8, 16]
    rw [seedStep_find_other store [1, 2] (show ("moderator" : String) ≠ "user" by decide)] at e2
    rw [seedStep_find_other (seedStep store "user" [1, 2]) [1, 2, 8]
        (show ("admin" : String) ≠ "moderator" by decide),
      seedStep_find_other store [1, 2] (show ("admin" : String) ≠ "user" by decide)] at e3
    have dec := countDefault_decompose store h1 h2
    have c1 : (if ("user" : String) == "user" then (1 : Nat) else 0) = 1 := by decide
    have c2 : (if ("moderator" : String) == "user" then (1 : Nat) else 0) = 0 := by decide
    have c3 : (if ("admin" : String) == "user" then (1 : Nat) else 0) = 0 := by decide
    rw [c1] at e1
    rw [c2] at e2
    rw [c3] at e3
    rw [insert_roles_eq]
    omega
  · have h1' := @seedStep_namesOf_nodup store "user" [1, 2] h1
    have h1'' := @seedStep_namesOf_nodup (seedStep store "user" [1, 2]) "moderator" [1, 2, 8] h1'
    intro r hr hd
    rw [insert_roles_eq] at hr
    rcases seedStep_mem h1'' hr with h | ⟨hr2, hne3⟩
    · rw [h] at hd
      exact absurd hd (by decide)
    · rcases seedStep_mem h1' hr2 with h | ⟨hr1, hne2⟩
      · rw [h] at hd
        exact absurd hd (by decide)
      · rcases seedStep_mem h1 hr1 with h | ⟨hr0, hne1⟩
        · rw [h]
        · rcases h2 r hr0 hd with hn | hn | hn
          · exact hn
          · exact absurd hn hne2
          · exact absurd hn hne3

/-- Witness for the amended C8 theorem at a concrete prior store holding a
stale default flag on the moderator row. -/
theorem seed_roles_unique_default_witness :
    countDefault (insert_roles [Role.mk "moderator" true 7]) = 1 ∧
    ∀ r ∈ insert_roles [Role.mk "moderator" true 7], r.default = true → r.name = "user" :=
  seed_roles_unique_default [Role.mk "moderator" true 7] (by decide) (by decide)

/-! ### Bit-level behaviour of add_permission / remove_permission (single bits)

All defined permission values are distinct powers of two (FOLLOW=1, COMMENT=2,
WRITE=4, MODERATE=8, ADMIN=16); the next lemmas analyse the guarded += / -=
implementation of add_permission and remove_permission on a bit 2^k. -/

theorem two_pow_pos' (k : Nat) : 0 < 2 ^ k := pow_pos (by norm_num) k

theorem add_pow_div_self (m k : Nat) : (m + 2 ^ k) / 2 ^ k = m / 2 ^ k + 1 :=
  Nat.add_div_right m (two_pow_pos' k)

theorem add_pow_div_lt {j k : Nat} (m : Nat) (h : j < k) :
    (m + 2 ^ k) / 2 ^ j % 2 = m / 2 ^ j % 2 := by
  have hk : 2 ^ k = 2 ^ (k - j) * 2 ^ j := by
    rw [← pow_add]
    congr 1
    omega
  have hdiv : (m + 2 ^ k) / 2 ^ j = m / 2 ^ j + 2 ^ (k - j) := by
    rw [hk, Nat.add_mul_div_right _ _ (two_pow_pos' j)]
  have heven : 2 ^ (k - j) = 2 * 2 ^ (k - j - 1) := by
    rw [← pow_succ']
    congr 1
    omega
  rw [hdiv]
  omega

theorem mod_pow_succ_lt {m k : Nat} (h : m / 2 ^ k % 2 = 0) : m % 2 ^ (k + 1) < 2 ^ k := by
  have h2 := @Nat.mod_pow_succ m 2 k
  rw [h, Nat.mul_zero, Nat.add_zero] at h2
  rw [h2]
  exact Nat.mod_lt _ (two_pow_pos' k)

theorem add_pow_div_succ {m k : Nat} (h : m / 2 ^ k % 2 = 0) :
    (m + 2 ^ k) / 2 ^ (k + 1) = m / 2 ^ (k + 1) := by
  have hmod := Nat.div_add_mod m (2 ^ (k + 1))
  have hr : m % 2 ^ (k + 1) < 2 ^ k := mod_pow_succ_lt h
  have hsum : m + 2 ^ k = 2 ^ (k + 1) * (m / 2 ^ (k + 1)) + (m % 2 ^ (k + 1) + 2 ^ k) := by
    omega
  have hsmall : m % 2 ^ (k + 1) + 2 ^ k < 2 ^ (k + 1) := by
    have : 2 ^ (k + 1) = 2 ^ k + 2 ^ k := by
      rw [pow_succ]
      omega
    omega
  rw [hsum, Nat.mul_add_div (two_pow_pos' (k + 1)), Nat.div_eq_of_lt hsmall, Nat.add_zero]

theorem add_pow_div_gt {j k : Nat} (m : Nat) (hjk : k < j) (h : m / 2 ^ k % 2 = 0) :
    (m + 2 ^ k) / 2 ^ j = m / 2 ^ j := by
  have hj : 2 ^ j = 2 ^ (k + 1) * 2 ^ (j - (k + 1)) := by
    rw [← pow_add]
    congr 1
    omega
  rw [hj, ← Nat.div_div_eq_div_mul, ← Nat.div_div_eq_div_mul, add_pow_div_succ h]

theorem pow_le_of_bit_set {m k : Nat} (h : m / 2 ^ k % 2 = 1) : 2 ^ k ≤ m := by
  have hdm := Nat.div_add_mod (m / 2 ^ k) 2
  have h1 : 1 ≤ m / 2 ^ k := by omega
  have := Nat.div_mul_le_self m (2 ^ k)
  have h2 : 2 ^ k * 1 ≤ 2 ^ k * (m / 2 ^ k) := Nat.mul_le_mul_left _ h1
  calc 2 ^ k = 2 ^ k * 1 := by omega
    _ ≤ 2 ^ k * (m / 2 ^ k) := h2
    _ ≤ m := by
        have := Nat.div_add_mod m (2 ^ k)
        omega

theorem sub_pow_bit_clear {m k : Nat} (h : m / 2 ^ k % 2 = 1) :
    (m - 2 ^ k) / 2 ^ k % 2 = 0 := by
  have hle : 2 ^ k ≤ m := pow_le_of_bit_set h
  have hm : m = (m - 2 ^ k) + 2 ^ k := by omega
  have := add_pow_div_self (m - 2 ^ k) k
  rw [← hm] at this
  omega

/-- The bitmask containment test on a single bit 2^k is the bit test. -/
theorem has_permission_pow_iff (r : Role) (k : Nat) :
    r.has_permission (2 ^ k) = true ↔ r.permissions / 2 ^ k % 2 = 1 := by
  rw [Role.has_permission, beq_iff_eq, Nat.and_two_pow, Nat.testBit_to_div_mod]
  have h2 : r.permissions / 2 ^ k % 2 = 0 ∨ r.permissions / 2 ^ k % 2 = 1 := by omega
  rcases h2 with h | h
  · simp [h]
    exact Nat.ne_of_lt (two_pow_pos' k)
  · simp [h]

theorem bool_eq_of_true_iff {a b : Bool} (h : (a = true) ↔ (b = true)) : a = b := by
  cases a <;> cases b <;> simp_all

theorem has_permission_mk_pow_iff (nm : String) (df : Bool) (m k : Nat) :
    (Role.mk nm df m).has_permission (2 ^ k) = true ↔ m / 2 ^ k % 2 = 1 :=
  has_permission_pow_iff (Role.mk nm df m) k

theorem div_pow_mod_sub {m k j : Nat} (hbit : m / 2 ^ k % 2 = 1) (hj : j ≠ k) :
    (m - 2 ^ k) / 2 ^ j % 2 = m / 2 ^ j % 2 := by
  have hle : 2 ^ k ≤ m := pow_le_of_bit_set hbit
  have hm : m = (m - 2 ^ k) + 2 ^ k := by omega
  have hbit0 : (m - 2 ^ k) / 2 ^ k % 2 = 0 := sub_pow_bit_clear hbit
  rcases Nat.lt_or_ge j k with hjk | hjk
  · conv_rhs => rw [hm]
    exact (add_pow_div_lt _ hjk).symm
  · have hjk' : k < j := lt_of_le_of_ne hjk (fun hc => hj hc.symm)
    conv_rhs => rw [hm]
    rw [add_pow_div_gt _ hjk' hbit0]

theorem div_pow_mod_add {m k j : Nat} (hbit : m / 2 ^ k % 2 = 0) (hj : j ≠ k) :
    (m + 2 ^ k) / 2 ^ j % 2 = m / 2 ^ j % 2 := by
  rcases Nat.lt_or_ge j k with hjk | hjk
  · exact add_pow_div_lt _ hjk
  · have hjk' : k < j := lt_of_le_of_ne hjk (fun hc => hj hc.symm)
    rw [add_pow_div_gt _ hjk' hbit]

/-- C7: for every role and every permission value — a single power-of-two bit,
as the Permission registry defines them (FOLLOW=1, COMMENT=2, WRITE=4,
MODERATE=8, ADMIN=16) — add_permission sets the bit when it is not already set
and is idempotent (a second application is the identity and has_permission
then holds); remove_permission clears the bit when set and is idempotent; and
neither operation alters any other bit of the mask. -/
theorem add_remove_permission_single_bit (r : Role) (k : Nat) :
    ((r.add_permission (2 ^ k)).has_permission (2 ^ k) = true) ∧
    ((r.add_permission (2 ^ k)).add_permission (2 ^ k) = r.add_permission (2 ^ k)) ∧
    (r.has_permission (2 ^ k) = true → r.add_permission (2 ^ k) = r) ∧
    (∀ j, j ≠ k →
      (r.add_permission (2 ^ k)).has_permission (2 ^ j) = r.has_permission (2 ^ j)) ∧
    ((r.remove_permission (2 ^ k)).has_permission (2 ^ k) = false) ∧
    ((r.remove_permission (2 ^ k)).remove_permission (2 ^ k) = r.remove_permission (2 ^ k)) ∧
    (r.has_permission (2 ^ k) = false → r.remove_permission (2 ^ k) = r) ∧
    (∀ j, j ≠ k →
      (r.remove_permission (2 ^ k)).has_permission (2 ^ j) = r.has_permission (2 ^ j)) := by
  cases hb : r.has_permission (2 ^ k) with
  | true =>
      have hbit : r.permissions / 2 ^ k % 2 = 1 := (has_permission_pow_iff r k).mp hb
      have hadd : r.add_permission (2 ^ k) = r := by
        simp [Role.add_permission, hb]
      have hrm : r.remove_permission (2 ^ k) =
          Role.mk r.name r.default (r.permissions - 2 ^ k) := by
        simp [Role.remove_permission, hb]
      have hrmbit : (Role.mk r.name r.default (r.permissions - 2 ^ k)
          ).has_permission (2 ^ k) = false := by
        apply bool_eq_of_true_iff
        rw [has_permission_mk_pow_iff]
        have h0 := sub_pow_bit_clear hbit
        simp
        omega
      refine ⟨?_, ?_, ?_, ?_, ?_, ?_, ?_, ?_⟩
      · rw [hadd]; exact hb
      · rw [hadd]; exact hadd
      · intro _; exact hadd
      · intro j hj; rw [hadd]
      · rw [hrm]; exact hrmbit
      · rw [hrm]
        simp [Role.remove_permission, hrmbit]
      · intro h7; simp [hb] at h7
      · intro j hj
        rw [hrm]
        apply bool_eq_of_true_iff
        rw [has_permission_mk_pow_iff, has_permission_pow_iff, div_pow_mod_sub hbit hj]
  | false =>
      have hbit : r.permissions / 2 ^ k % 2 = 0 := by
        have hiff := has_permission_pow_iff r k
        rw [hb] at hiff
        simp at hiff
        omega
      have hadd : r.add_permission (2 ^ k) =
          Role.mk r.name r.default (r.permissions + 2 ^ k) := by
        simp [Role.add_permission, hb]
      have haddbit : (Role.mk r.name r.default (r.permissions + 2 ^ k)
          ).has_permission (2 ^ k) = true := by
        rw [has_permission_mk_pow_iff, add_pow_div_self]
        omega
      have hrm : r.remove_permission (2 ^ k) = r := by
        simp [Role.remove_permission, hb]
      refine ⟨?_, ?_, ?_, ?_, ?_, ?_, ?_, ?_⟩
      · rw [hadd]; exact haddbit
      · rw [hadd]
        simp [Role.add_permission, haddbit]
      · intro h3; simp [hb] at h3
      · intro j hj
        rw [hadd]
        apply bool_eq_of_true_iff
        rw [has_permission_mk_pow_iff, has_permission_pow_iff, div_pow_mod_add hbit hj]
      · rw [hrm]; exact hb
      · rw [hrm]; exact hrm
      · intro _; exact hrm
      · intro j hj; rw [hrm]

/-- Witness for the add/remove permission theorem: concrete role with mask 5,
bit WRITE=4=2^2 added then inspected at the unrelated bit FOLLOW=1=2^0, and
the hypothesis-bearing conjuncts discharged at concrete inputs. -/
theorem add_remove_permission_single_bit_witness :
    ((Role.mk "x" false 5).add_permission (2 ^ 1)).has_permission (2 ^ 0) =
      (Role.mk "x" false 5).has_permission (2 ^ 0) ∧
    (Role.mk "x" false 5).add_permission (2 ^ 0) = Role.mk "x" false 5 ∧
    ((Role.mk "x" false 5).remove_permission (2 ^ 1)).has_permission (2 ^ 0) =
      (Role.mk "x" false 5).has_permission (2 ^ 0) :=
  ⟨(add_remove_permission_single_bit (Role.mk "x" false 5) 1).2.2.2.1 0 (by decide),
   (add_remove_permission_single_bit (Role.mk "x" false 5) 0).2.2.1 (by decide),
   (add_remove_permission_single_bit (Role.mk "x" false 5) 1).2.2.2.2.2.2.2 0 (by decide)⟩

/-! ## Token service and identity model (class User)

Tokens are issued and checked through itsdangerous
TimedJSONWebSignatureSerializer objects.  The serializer is modelled
explicitly: a well-formed token carries its JSON payload (a string-keyed
record of integers), the secret it was signed with, its issue time and its
time-to-live; any other byte string is malformed.  loads verifies the
signature (here: the secrets agree) and the embedded expiry and raises
BadData on any failure; Python exceptions are modelled with Except. -/

/-- Python exceptions that the modelled code can raise. -/
inductive PyExn where
  | badData
  | keyError (key : String)
  | attributeError (msg : String)
  deriving Repr, DecidableEq

/-- A token byte string: either a signed envelope or arbitrary malformed
bytes (which also covers payload-tampered strings, since altering a signed
payload without the secret invalidates the signature). -/
inductive TokenBytes where
  | signed (payload : List (String × Int)) (secret : String) (issued : Nat) (expiresIn : Nat)
  | malformed (text : String)
  deriving Repr, DecidableEq

/-- Modelled from the itsdangerous library: loads verifies signature and
expiry, returning the payload, and raises BadData on a malformed token, a
signature mismatch, or an expired token (issue time + ttl before now). -/
def loads (secret : String) (now : Nat) (t : TokenBytes) :
    Except PyExn (List (String × Int)) :=
  match t with
  | .malformed _ => .error .badData
  | .signed payload sec issued expiresIn =>
      if sec ≠ secret then .error .badData
      else if issued + expiresIn < now then .error .badData
      else .ok payload

/-- A row of the user table, together with the non-column Python attribute
`_last_seen` that User.seen creates (none until seen is first called). -/
structure User where
  id : Int
  username : String
  email : String
  password_hash : String
  active : Bool
  last_seen : Nat
  _last_seen : Option Nat
  role : Option Role
  deriving Repr, DecidableEq

/-- User.generate_activation_token: dumps a payload with the "confirm" key
set to the user's id, signed with the application secret. -/
def User.generate_activation_token (u : User) (secret : String) (now : Nat)
    (expiration : Nat) : TokenBytes :=
  .signed [("confirm", u.id)] secret now expiration

/-- User.activate: loads the token, returning false on BadData; returns
false when the payload's "confirm" entry differs from the user's id
(data.get, so a missing key is None and also differs); otherwise sets
active and returns true.  The session add only persists the user, modelled
by returning the updated user. -/
def User.activate (u : User) (secret : String) (now : Nat) (token : TokenBytes) :
    Except PyExn (User × Bool) :=
  match loads secret now token with
  | .error .badData => .ok (u, false)
  | .error e => .error e
  | .ok data =>
      if (data.lookup "confirm") ≠ some u.id then .ok (u, false)
      else .ok ({ u with active := true }, true)

/-- User.generate_auth_token: payload with the "id" key set to the user's id. -/
def User.generate_auth_token (u : User) (secret : String) (now : Nat)
    (expiration : Nat) : TokenBytes :=
  .signed [("id", u.id)] secret now expiration

/-- User.query.get on the user table: the row with the given primary key. -/
def query_get (store : List User) (i : Int) : Option User :=
  store.find? (fun u => u.id == i)

/-- User.verify_auth_token: loads the token, returning None on BadData, then
subscripts the payload with "id" — data["id"], which raises KeyError when a
validly signed payload has no such key — and looks the id up in the user
table. -/
def User.verify_auth_token (store : List User) (secret : String) (now : Nat)
    (token : TokenBytes) : Except PyExn (Option User) :=
  match loads secret now token with
  | .error .badData => .ok none
  | .error e => .error e
  | .ok data =>
      match data.lookup "id" with
      | none => .error (.keyError "id")
      | some i => .ok (query_get store i)

/-- User.password property getter: always raises
AttributeError("Password is not stored."). -/
def User.password (_ : User) : Except PyExn String :=
  .error (.attributeError "Password is not stored.")

/-- User.password setter: stores only the hash of the plaintext.  The hash
function (werkzeug generate_password_hash) is an external collaborator and
is passed as a parameter. -/
def User.set_password (u : User) (hashFn : String → String) (pw : String) : User :=
  { u with password_hash := hashFn pw }

/-- User.seen: the source assigns `self._last_seen = datetime.utcnow()` —
note the leading underscore, a plain Python attribute, not the last_seen
column — and commits. -/
def User.seen (u : User) (now : Nat) : User :=
  { u with _last_seen := some now }

/-- Role assignment in User.__init__: when no explicit role is given, try the
role named "admin" if the email matches the configured administrator address,
and if the role is still None fall back to the role flagged as default. -/
def userInitRole (explicit : Option Role) (email adminAddress : String)
    (roleStore : List Role) : Option Role :=
  match explicit with
  | some r => some r
  | none =>
      match (if email == adminAddress then roleStore.find? (byName "admin") else none) with
      | some r => some r
      | none => roleStore.find? (fun r => r.default)

/-- loads either fails with BadData or succeeds; it raises nothing else. -/
theorem loads_cases (secret : String) (now : Nat) (t : TokenBytes) :
    loads secret now t = .error .badData ∨ ∃ p, loads secret now t = .ok p := by
  cases t with
  | malformed s => exact Or.inl rfl
  | signed p sec iss exp =>
      by_cases hsec : sec ≠ secret
      · exact Or.inl (by simp [loads, hsec])
      · by_cases hexp : iss + exp < now
        · exact Or.inl (by simp [loads, hsec, hexp])
        · exact Or.inr ⟨p, by simp [loads, hsec, hexp]⟩

/-- C3: consuming an activation token issued for a user returns true and sets
active; a token issued for a different user returns false and leaves the user
unchanged; a malformed token, a token signed with a wrong secret (tampering),
an expired token, and in general any token loads rejects all return false
with the user unchanged; and on any token whatsoever activate returns a
boolean result without raising — the only outcomes are (unchanged user,
false) and (activated user, true). -/
theorem activate_token_lifecycle (u other : User) (secret junk sec2 : String)
    (p : List (String × Int)) (t0 now iss exp : Nat) (token : TokenBytes)
    (h1 : now ≤ t0 + 3600) (h2 : other.id ≠ u.id) (h3 : sec2 ≠ secret)
    (h4 : iss + exp < now) :
    u.activate secret now (u.generate_activation_token secret t0 3600) =
      .ok ({ u with active := true }, true) ∧
    u.activate secret now (other.generate_activation_token secret t0 3600) =
      .ok (u, false) ∧
    u.activate secret now (.malformed junk) = .ok (u, false) ∧
    u.activate secret now (.signed p sec2 t0 3600) = .ok (u, false) ∧
    u.activate secret now (.signed p secret iss exp) = .ok (u, false) ∧
    (loads secret now token = .error .badData →
      u.activate secret now token = .ok (u, false)) ∧
    (u.activate secret now token = .ok (u, false) ∨
      u.activate secret now token = .ok ({ u with active := true }, true)) := by
  have hexp : ¬ (t0 + 3600 < now) := by omega
  refine ⟨?_, ?_, ?_, ?_, ?_, ?_, ?_⟩
  · simp [User.activate, User.generate_activation_token, loads, hexp, List.lookup]
  · simp [User.activate, User.generate_activation_token, loads, hexp, List.lookup, h2]
  · rfl
  · simp [User.activate, loads, h3]
  · simp [User.activate, loads, h4]
  · intro h
    simp [User.activate, h]
  · rcases loads_cases secret now token with h | ⟨q, h⟩
    · left
      simp [User.activate, h]
    · by_cases hc : (q.lookup "confirm") ≠ some u.id
      · left
        simp [User.activate, h, hc]
      · right
        simp [User.activate, h, hc]

/-- Witness for the activation lifecycle at concrete users, secret, clock,
payload, wrong secret, expired issue time and a malformed token. -/
theorem activate_token_lifecycle_witness :
    (User.mk 1 "brian" "b@e" "h" false 0 none none).activate "s" 10
        ((User.mk 1 "brian" "b@e" "h" false 0 none none
          ).generate_activation_token "s" 0 3600) =
      .ok ({ User.mk 1 "brian" "b@e" "h" false 0 none none with active := true }, true) ∧
    (User.mk 1 "brian" "b@e" "h" false 0 none none).activate "s" 10
        ((User.mk 2 "bob" "c@e" "h" false 0 none none
          ).generate_activation_token "s" 0 3600) =
      .ok (User.mk 1 "brian" "b@e" "h" false 0 none none, false) ∧
    (User.mk 1 "brian" "b@e" "h" false 0 none none).activate "s" 10
        (.malformed "junk") =
      .ok (User.mk 1 "brian" "b@e" "h" false 0 none none, false) ∧
    (User.mk 1 "brian" "b@e" "h" false 0 none none).activate "s" 10
        (.signed [("confirm", 1)] "t" 0 3600) =
      .ok (User.mk 1 "brian" "b@e" "h" false 0 none none, false) ∧
    (User.mk 1 "brian" "b@e" "h" false 0 none none).activate "s" 10
        (.signed [("confirm", 1)] "s" 0 5) =
      .ok (User.mk 1 "brian" "b@e" "h" false 0 none none, false) ∧
    (loads "s" 10 (.malformed "junk") = .error .badData →
      (User.mk 1 "brian" "b@e" "h" false 0 none none).activate "s" 10
          (.malformed "junk") =
        .ok (User.mk 1 "brian" "b@e" "h" false 0 none none, false)) ∧
    ((User.mk 1 "brian" "b@e" "h" false 0 none none).activate "s" 10
        (.malformed "junk") =
      .ok (User.mk 1 "brian" "b@e" "h" false 0 none none, false) ∨
    (User.mk 1 "brian" "b@e" "h" false 0 none none).activate "s" 10
        (.malformed "junk") =
      .ok ({ User.mk 1 "brian" "b@e" "h" false 0 none none with active := true }, true)) :=
  activate_token_lifecycle (User.mk 1 "brian" "b@e" "h" false 0 none none)
    (User.mk 2 "bob" "c@e" "h" false 0 none none) "s" "junk" "t" [("confirm", 1)]
    0 10 0 5 (.malformed "junk") (by decide) (by decide) (by decide) (by decide)

/-- C4 (code bug): verify_auth_token catches BadData and returns a user or
None for signed-and-fresh auth tokens and malformed tokens, but subscripting
the payload with data["id"] raises KeyError for a validly signed payload
lacking that key — e.g. an activation token, signed with the same application
secret — so the exception does escape to the caller. -/
theorem verify_auth_token_keyerror :
    User.verify_auth_token [User.mk 1 "brian" "b@e" "h" true 0 none none] "s" 10
        ((User.mk 1 "brian" "b@e" "h" true 0 none none
          ).generate_auth_token "s" 0 3600) =
      .ok (some (User.mk 1 "brian" "b@e" "h" true 0 none none)) ∧
    User.verify_auth_token [User.mk 1 "brian" "b@e" "h" true 0 none none] "s" 10
        (.malformed "junk") = .ok none ∧
    User.verify_auth_token [User.mk 1 "brian" "b@e" "h" true 0 none none] "s" 10
        ((User.mk 1 "brian" "b@e" "h" true 0 none none
          ).generate_auth_token "other-secret" 0 3600) = .ok none ∧
    User.verify_auth_token [User.mk 1 "brian" "b@e" "h" true 0 none none] "s" 5000
        ((User.mk 1 "brian" "b@e" "h" true 0 none none
          ).generate_auth_token "s" 0 3600) = .ok none ∧
    User.verify_auth_token [User.mk 1 "brian" "b@e" "h" true 0 none none] "s" 10
        ((User.mk 1 "brian" "b@e" "h" true 0 none none
          ).generate_activation_token "s" 0 3600) = .error (.keyError "id") := by
  refine ⟨rfl, rfl, rfl, rfl, rfl⟩

/-- C5: the password property getter always fails with the access error (the
AttributeError of the source, the AccessError of the design document), also
right after set_password, which stores only the hash of the plaintext. -/
theorem password_write_only (u : User) (hashFn : String → String) (pw : String) :
    u.password = .error (.attributeError "Password is not stored.") ∧
    (u.set_password hashFn pw).password =
      .error (.attributeError "Password is not stored.") ∧
    (u.set_password hashFn pw).password_hash = hashFn pw := by
  exact ⟨rfl, rfl, rfl⟩

/-- C9 (code bug): User.seen assigns the plain attribute `_last_seen`, not the
last_seen column, so last_seen is left unchanged for every user and every
clock value; in particular a user whose last_seen is 5 still has last_seen 5
after seen runs at time 100. -/
theorem seen_leaves_last_seen_unchanged (u : User) (now : Nat) :
    (u.seen now).last_seen = u.last_seen ∧
    (u.seen now)._last_seen = some now ∧
    ((User.mk 1 "brian" "b@e" "h" true 5 none none).seen 100).last_seen = 5 := by
  exact ⟨rfl, rfl, rfl⟩

/-- C10: a user created without an explicit role whose email equals the
configured administrator address falls back to the default-flagged role when
no role named "admin" exists in the role store. -/
theorem admin_email_falls_back_to_default_role (email adminAddress : String)
    (roleStore : List Role)
    (h1 : email = adminAddress)
    (h2 : roleStore.find? (byName "admin") = none) :
    userInitRole none email adminAddress roleStore =
      roleStore.find? (fun r => r.default) := by
  simp [userInitRole, h1, h2]

/-- Witness for the admin-email fallback at a concrete store holding only the
default user role. -/
theorem admin_email_falls_back_to_default_role_witness :
    userInitRole none "a@b.c" "a@b.c" [Role.mk "user" true 3] =
      some (Role.mk "user" true 3) :=
  (admin_email_falls_back_to_default_role "a@b.c" "a@b.c" [Role.mk "user" true 3]
    rfl (by decide)).trans (by decide)

/-! ## Comment model and the body-change listener (class Comment)

db.event.listen(Comment.body, "set", Comment.on_change_body) runs the
listener on every assignment to body: at creation (the constructor keyword
sets body on a fresh object whose edit_time is None) and on every later
edit.  The rendering pipeline of the listener uses the external bleach
library; its relevant behaviour is modelled below, on character lists so
that every definition evaluates by kernel reduction. -/

/-- Python str.strip character class (whitespace). -/
def isPySpace (c : Char) : Bool :=
  c = ' ' ∨ c = '\t' ∨ c = '\n' ∨ c = '\r' ∨ c = '\x0b' ∨ c = '\x0c'

/-- Python value.strip(): drop whitespace from both ends. -/
def pyStrip (s : String) : String :=
  String.mk (((s.data.dropWhile isPySpace).reverse.dropWhile isPySpace).reverse)

/-- Modelled from the bleach library: bleach.clean(value, tags=[]) parses the
text as HTML and, with the default strip=False, serializes every tag and
special character back as escaped text instead of removing it, so a
disallowed tag such as script comes out as escaped source text.  Modelled
character-wise (escape ampersand, less-than and greater-than); re-parsing of
pre-existing ampersand entities is not modelled, which agrees with bleach on
inputs containing no ampersand. -/
def cleanChar (c : Char) : List Char :=
  if c = '&' then "&amp;".data
  else if c = '<' then "&lt;".data
  else if c = '>' then "&gt;".data
  else [c]

/-- bleach.clean(value, tags=[]) on a whole string. -/
def bleach_clean (s : String) : String :=
  String.mk (s.data.flatMap cleanChar)

/-- re.compile(r"\n+").sub("</p><p>", text): replace every maximal run of
newline characters by a paragraph boundary.  The flag records whether the
previous character was part of a newline run. -/
def nlSubGo (inRun : Bool) : List Char → List Char
  | [] => []
  | c :: rest =>
      if c = '\n' then
        (if inRun then [] else "</p><p>".data) ++ nlSubGo true rest
      else c :: nlSubGo false rest

/-- The newline-run substitution on a string. -/
def nlSub (s : String) : String :=
  String.mk (nlSubGo false s.data)

/-- Split on single space characters (Python str.split-on-separator
semantics: consecutive separators yield empty words, so joining restores the
input exactly). -/
def splitSp : List Char → List (List Char)
  | [] => [[]]
  | c :: rest =>
      match splitSp rest with
      | [] => if c = ' ' then [[], []] else [[c]]
      | w :: ws => if c = ' ' then [] :: w :: ws else (c :: w) :: ws

/-- Join words back with single spaces. -/
def joinSp : List (List Char) → List Char
  | [] => []
  | [w] => w
  | w :: ws => w ++ ' ' :: joinSp ws

/-- Modelled from the bleach library: within a text node, linkify wraps a
bare http or https URL in an anchor carrying rel="nofollow" whose text is
the URL itself.  Modelled at word granularity: a maximal space-delimited
word starting with a URL scheme becomes a link. -/
def linkifyWord (w : List Char) : List Char :=
  if "http://".data.isPrefixOf w ∨ "https://".data.isPrefixOf w then
    "<a href=\"".data ++ w ++ "\" rel=\"nofollow\">".data ++ w ++ "</a>".data
  else w

/-- URL auto-linking inside one text node. -/
def linkifyText (s : List Char) : List Char :=
  joinSp ((splitSp s).map linkifyWord)

/-- Lexer token of the HTML fragment that linkify re-parses: in this
pipeline the only markup reaching linkify is the literal paragraph tags
inserted by the newline substitution (bleach.clean has escaped every other
angle bracket), so the lexer recognises those two tags and treats every
other character as text. -/
inductive PTok where
  | ch (c : Char)
  | pStart
  | pEnd
  deriving Repr, DecidableEq

/-- Tokenise a fragment into p tags and text characters. -/
def lexP : List Char → List PTok
  | [] => []
  | '<' :: '/' :: 'p' :: '>' :: rest => PTok.pEnd :: lexP rest
  | '<' :: 'p' :: '>' :: rest => PTok.pStart :: lexP rest
  | c :: rest => PTok.ch c :: lexP rest

/-- A node of the parsed fragment: top-level text, or a p element holding
text (the only element structure these inputs can produce). -/
inductive PItem where
  | txt (s : List Char)
  | par (s : List Char)
  deriving Repr, DecidableEq

/-- Modelled from the bleach library: linkify parses its input as an HTML
fragment (html5lib), so the tree construction rules for p apply: a p start
tag closes an open p before opening a new one, and a p end tag with no open
p element inserts a p element and immediately closes it (an empty
paragraph); end of input closes an open p.  inP records whether a p element
is open and acc the text collected in the current container. -/
def parsePGo : Bool → List Char → List PTok → List PItem
  | inP, acc, [] =>
      if inP then [PItem.par acc]
      else if acc.isEmpty then [] else [PItem.txt acc]
  | inP, acc, PTok.ch c :: rest => parsePGo inP (acc ++ [c]) rest
  | inP, acc, PTok.pStart :: rest =>
      if inP then PItem.par acc :: parsePGo true [] rest
      else if acc.isEmpty then parsePGo true [] rest
      else PItem.txt acc :: parsePGo true [] rest
  | inP, acc, PTok.pEnd :: rest =>
      if inP then PItem.par acc :: parsePGo false [] rest
      else if acc.isEmpty then PItem.par [] :: parsePGo false [] rest
      else PItem.txt acc :: PItem.par [] :: parsePGo false [] rest

/-- Serialize the fragment back (the bleach serializer keeps explicit end
tags), auto-linking URLs in every text node on the way, as the linkify tree
walk does. -/
def serP (items : List PItem) : List Char :=
  items.flatMap (fun it =>
    match it with
    | PItem.txt s => linkifyText s
    | PItem.par s => "<p>".data ++ linkifyText s ++ "</p>".data)

/-- bleach.linkify on a whole string: parse as an HTML fragment, link URLs
in text nodes, serialize.  Faithful on the inputs this pipeline produces
(entity-escaped text interleaved with the p tags inserted by the newline
substitution); a reminder that stray markup is normalised by the round
trip, not passed through verbatim. -/
def linkify (s : String) : String :=
  String.mk (serP (parsePGo false [] (lexP s.data)))

/-- The rendering pipeline of Comment.on_change_body, exactly in source
order: strip, clean, substitute newline runs, linkify, wrap in one leading
and one trailing paragraph tag. -/
def renderComment (value : String) : String :=
  "<p>" ++ linkify (nlSub (bleach_clean (pyStrip value))) ++ "</p>"

/-- A row of the comment table (the fields the listener touches, plus the
creation timestamp). -/
structure Comment where
  body : String
  body_html : String
  timestamp : Nat
  edit_time : Option Nat
  deriving Repr, DecidableEq

/-- Comment.on_change_body: `if not target.edit_time: target.edit_time =
datetime.utcnow()` (None is the only falsy value a DateTime column takes),
then recompute body_html from the new value; the ORM assigns body itself. -/
def Comment.on_change_body (c : Comment) (value : String) (now : Nat) : Comment :=
  let c1 := if c.edit_time = none then { c with edit_time := some now } else c
  { c1 with body := value, body_html := renderComment value }

/-- Posting a comment: construct a row with the body keyword; the set event
fires on a fresh object whose edit_time is None. -/
def post_comment (body : String) (now : Nat) : Comment :=
  Comment.on_change_body (Comment.mk "" "" now none) body now

/-- Editing a comment: assign body again; the set event fires on the
existing object. -/
def edit_comment (c : Comment) (newBody : String) (now : Nat) : Comment :=
  Comment.on_change_body c newBody now

/-- C2 (code bug): the guard `if not target.edit_time` is inverted — the
listener stamps edit_time on the FIRST assignment of body (at creation, when
edit_time is still None) and then never updates it again: a comment posted at
time 10 already has edit_time 10, and editing it at time 20 leaves edit_time
at 10 instead of setting 20. -/
theorem comment_edit_time_inverted :
    (post_comment "a" 10).edit_time = some 10 ∧
    ¬ ((post_comment "a" 10).edit_time = none) ∧
    (edit_comment (post_comment "a" 10) "b" 20).edit_time = some 10 ∧
    ¬ ((edit_comment (post_comment "a" 10) "b" 20).edit_time = some 20) ∧
    (edit_comment (edit_comment (post_comment "a" 10) "b" 20) "c" 30).edit_time = some 10 := by
  refine ⟨rfl, by decide, rfl, by decide, rfl⟩

/-- C6 counterexample: bleach.clean is called without strip=True, so its
default behaviour escapes disallowed tags instead of removing them — the
script tag is still present, HTML-escaped, in the rendered output, and the
output is not the tag-stripped paragraph the claim requires.  The paragraph
story fails too: the newline substitution inserts raw paragraph markers that
linkify, an HTML parse/serialize round trip, normalises (the stray end tag
becomes an empty p element), so render("a\n\nb") is not the two clean
paragraphs the claim requires. -/
theorem render_escapes_tags_counterexample :
    renderComment "<script>x</script>" = "<p>&lt;script&gt;x&lt;/script&gt;</p>" ∧
    ¬ (renderComment "<script>x</script>" = "<p>x</p>") ∧
    renderComment "a\n\nb" = "<p>a<p></p><p>b</p></p>" ∧
    ¬ (renderComment "a\n\nb" = "<p>a</p><p>b</p>") := by
  refine ⟨by decide, by decide, by decide, by decide⟩

/-- C6 (amended): the comment rendering function is a pure function of the
body that strips leading and trailing whitespace, HTML-escapes tags and
special characters (rather than removing tags: bleach.clean with its default
strip=False), replaces each run of one-or-more newline characters with a
literal paragraph-boundary marker, auto-links bare URLs while re-parsing and
re-serializing the intermediate markup as HTML — which normalises each stray
marker into an empty p element followed by a p element holding the following
text — and wraps the result in a single leading and trailing paragraph tag;
so render("a\n\nb") = "<p>a<p></p><p>b</p></p>" rather than two clean
paragraphs, a single newline produces the same boundary as a run,
render("see http://example.com") produces an anchor around the URL, and the
escaping step leaves no raw angle bracket in the cleaned text. -/
theorem render_pipeline_properties :
    renderComment "a\n\nb" = "<p>a<p></p><p>b</p></p>" ∧
    renderComment "see http://example.com" =
      "<p>see <a href=\"http://example.com\" rel=\"nofollow\">http://example.com</a></p>" ∧
    renderComment "  a\n\nb  " = "<p>a<p></p><p>b</p></p>" ∧
    renderComment "a\nb\n\nc" = "<p>a<p></p><p>b</p><p>c</p></p>" ∧
    (∀ s : String, ∀ c ∈ (bleach_clean s).data, c ≠ '<' ∧ c ≠ '>') := by
  refine ⟨by decide, by decide, by decide, by decide, ?_⟩
  intro s c hc
  have hc' : c ∈ s.data.flatMap cleanChar := hc
  rw [List.mem_flatMap] at hc'
  obtain ⟨b, _, hcb⟩ := hc'
  by_cases h1 : b = '&'
  · rw [h1] at hcb
    have he : cleanChar '&' = ['&', 'a', 'm', 'p', ';'] := rfl
    rw [he] at hcb
    simp only [List.mem_cons, List.not_mem_nil, or_false] at hcb
    rcases hcb with rfl | rfl | rfl | rfl | rfl <;> exact ⟨by decide, by decide⟩
  · by_cases h2 : b = '<'
    · rw [h2] at hcb
      have he : cleanChar '<' = ['&', 'l', 't', ';'] := rfl
      rw [he] at hcb
      simp only [List.mem_cons, List.not_mem_nil, or_false] at hcb
      rcases hcb with rfl | rfl | rfl | rfl <;> exact ⟨by decide, by decide⟩
    · by_cases h3 : b = '>'
      · rw [h3] at hcb
        have he : cleanChar '>' = ['&', 'g', 't', ';'] := rfl
        rw [he] at hcb
        simp only [List.mem_cons, List.not_mem_nil, or_false] at hcb
        rcases hcb with rfl | rfl | rfl | rfl <;> exact ⟨by decide, by decide⟩
      · have he : cleanChar b = [b] := by simp [cleanChar, h1, h2, h3]
        rw [he] at hcb
        have hb : c = b := List.mem_singleton.mp hcb
        rw [hb]
        exact ⟨h2, h3⟩

/-- Witness for the rendering theorem's escaping conjunct at a concrete
cleaned string and character. -/
theorem render_pipeline_properties_witness : 'x' ≠ '<' ∧ 'x' ≠ '>' :=
  render_pipeline_properties.2.2.2.2 "x<y" 'x' (by decide)
